import Mathlib

/-!
Shallow embedding of the availability-state-change detection and
product-grouping/preference-scoring core of the coffee-monitor repository.

Each definition is translated from the JavaScript source file named in its
doc comment.  JavaScript strings are modelled as Lean `String`s (lower-casing
is modelled on ASCII, which covers every value these claims touch), JS
numbers that the core treats as integers are modelled as `Int`/`Nat`, and
nullable values as `Option`.
-/

/-- Model of a JavaScript value as it occurs in the attribute bags and
preference configuration handled by `src/utils/preferences.js`:
`undefined`, `null`, booleans, (integer) numbers and strings. -/
inductive JSVal where
  | undefVal
  | null
  | bool (b : Bool)
  | num (n : Int)
  | str (s : String)
deriving DecidableEq, Repr

/-- JS truthiness (`!!v`): `undefined`/`null` are falsy, a boolean is itself,
a number is truthy iff non-zero, a string is truthy iff non-empty. -/
def jsTruthy : JSVal → Bool
  | .undefVal => false
  | .null => false
  | .bool b => b
  | .num n => n != 0
  | .str s => s != ""

/-- JS `String(v)` conversion for the values modelled by `JSVal`. -/
def jsToString : JSVal → String
  | .undefVal => "undefined"
  | .null => "null"
  | .bool b => if b then "true" else "false"
  | .num n => toString n
  | .str s => s

/-- ASCII model of JS `String.prototype.toLowerCase()`. -/
def jsToLowerStr (s : String) : String :=
  String.mk (s.data.map Char.toLower)

/-- Property read `obj[key]` on a JS object modelled as an association
list: a missing key yields `undefined`. -/
def jsGet (o : List (String × JSVal)) (k : String) : JSVal :=
  match o.lookup k with
  | some v => v
  | none => .undefVal

/-! ## `src/utils/product-grouping.js` -/

/-- The AI attribute bag consumed by `generateProductGroupId`
(`src/utils/product-grouping.js`).  String fields are nullable in the JS
data; `none` models `null`. -/
structure AITags where
  country_of_origin : Option String
  region : Option String
  variety : Option String
  process_method : Option String
  roast_level : Option String
  is_decaf : Bool
deriving DecidableEq, Repr

/-- JS `v || dflt` for a nullable string: `null` and `""` are falsy. -/
def jsOrStr (v : Option String) (dflt : String) : String :=
  match v with
  | some s => if s = "" then dflt else s
  | none => dflt

/-- JS `Array.prototype.join(':')`. -/
def joinParts : List String → String
  | [] => ""
  | [s] => s
  | s :: rest => s ++ ":" ++ joinParts rest

/-- The list of identity parts built by `generateProductGroupId`
(`src/utils/product-grouping.js` lines 13-21), after `.filter(Boolean)`. -/
def groupIdParts (t : AITags) (roasteryName : String) : List String :=
  [roasteryName,
   jsOrStr t.country_of_origin "unknown",
   jsOrStr t.region "",
   jsOrStr t.variety "",
   jsOrStr t.process_method "",
   jsOrStr t.roast_level "",
   if t.is_decaf then "decaf" else ""].filter (fun s => s ≠ "")

/-- The lower-cased colon-joined pre-hash string that
`generateProductGroupId` (`src/utils/product-grouping.js` lines 7-28) feeds
to `crypto.createHash('sha256')`; `none` models the early `return null` when
the attribute bag itself is absent (`if (!aiTags) return null`). -/
def generateProductGroupPrehash (aiTags : Option AITags) (roasteryName : String) :
    Option String :=
  match aiTags with
  | none => none
  | some t => some (jsToLowerStr (joinParts (groupIdParts t roasteryName)))

/-- `generateProductGroupId` itself, parameterized by the (opaque from the
core's point of view) truncated-sha256 digest step, modelled as an arbitrary
function on the pre-hash string.  All claims about the id are stated either
hash-independently or on the pre-hash string, which the spec itself
identifies as the up-to-hash-collision content of the id. -/
def generateProductGroupId (hash : String → String) (aiTags : Option AITags)
    (roasteryName : String) : Option String :=
  (generateProductGroupPrehash aiTags roasteryName).map hash

/-- The all-null/zero/empty fallback attribute bag `_getEmptyTags()` produced
by `src/processors/ai-tagger.js` (lines 172-187) when AI tagging is disabled
or fails (restricted to the fields `generateProductGroupId` reads). -/
def emptyTags : AITags :=
  { country_of_origin := none
    region := none
    variety := none
    process_method := none
    roast_level := none
    is_decaf := false }

/-! ### Regex scanners for `extractSize` and `getBaseProductName`

The JS functions use a handful of fixed regexes of the shape
"digits, optional whitespace, a literal unit suffix, word boundary"
(optionally preceded by whitespace, or with an `x`-separated pair of
numbers).  They are modelled as explicit left-to-right scanners; because
the unit suffixes start with letters and `\d+`/`\s*` cannot overlap them,
maximal-munch scanning coincides with the regex backtracking semantics. -/

/-- ASCII model of the JS regex class `\s`. -/
def jsIsSpace (c : Char) : Bool :=
  c == ' ' || c == '\t' || c == '\n' || c == '\r' || c == '\x0b' || c == '\x0c'

/-- JS regex class `\w` (ASCII letters, digits, underscore). -/
def isWordChar (c : Char) : Bool :=
  c.isAlphanum || c == '_'

/-- Case-insensitive literal match (`/i` flag): strip `alt` from the front
of `l`, returning the remainder. -/
def ciPrefixStrip (alt : List Char) (l : List Char) : Option (List Char) :=
  match alt, l with
  | [], rest => some rest
  | _ :: _, [] => none
  | a :: alt₁, c :: l₁ =>
      if a.toLower = c.toLower then ciPrefixStrip alt₁ l₁ else none

/-- The regex `\b` word boundary placed after a word character: the next
character must be absent or a non-word character. -/
def boundaryOk : List Char → Bool
  | [] => true
  | c :: _ => !isWordChar c

/-- Numeric value of a digit run (what `parseInt(match[1])` yields). -/
def digitsVal (ds : List Char) : Nat :=
  ds.foldl (fun n c => n * 10 + (c.toNat - Char.toNat '0')) 0

/-- Try to match `(\d+)\s*<suffix>\b` starting exactly at the head of `l`
(the shape of the three `sizePatterns` of `extractSize`,
`src/utils/product-grouping.js` lines 36-40); on success return the
captured number. -/
def matchNumSuffix (suffix : List Char) (l : List Char) : Option Nat :=
  let ds := l.takeWhile Char.isDigit
  if ds.isEmpty then none
  else
    let rest := (l.dropWhile Char.isDigit).dropWhile jsIsSpace
    match ciPrefixStrip suffix rest with
    | some r => if boundaryOk r then some (digitsVal ds) else none
    | none => none

/-- Leftmost match of `(\d+)\s*<suffix>\b` in `l` (the semantics of
`String.prototype.match` used by `extractSize`). -/
def findNumSuffix (suffix : List Char) : List Char → Option Nat
  | [] => none
  | c :: t =>
    match matchNumSuffix suffix (c :: t) with
    | some n => some n
    | none => findNumSuffix suffix t

/-- Exact decimal rendering of `r/1000`'s fractional digits (`r` between 1
and 999), as the JS template `${amount / 1000}` prints it: three digits,
zero-padded on the left, trailing zeros trimmed. -/
def fracDigits (r : Nat) : String :=
  let s := toString r
  let padded := List.replicate (3 - s.length) '0' ++ s.data
  String.mk (padded.reverse.dropWhile (fun c => c = '0')).reverse

/-- Rendering step of `extractSize` (`src/utils/product-grouping.js` lines
52-57): amounts of at least 1000 grams render as `"<kg>kg"` (the JS
number-to-string of the exact division by 1000), smaller ones as
`"<n>g"`. -/
def renderSizeAmount (amount : Nat) : String :=
  if amount ≥ 1000 then
    (if amount % 1000 = 0 then toString (amount / 1000)
     else toString (amount / 1000) ++ "." ++ fracDigits (amount % 1000)) ++ "kg"
  else
    toString amount ++ "g"

/-- `extractSize` (`src/utils/product-grouping.js` lines 34-62): try the
patterns `(\d+)\s*g\b`, `(\d+)\s*kg\b`, `(\d+)\s*gram\b` in order; the kg
amount is normalized to grams; render via `renderSizeAmount`; `none` when
no pattern matches. -/
def extractSize (productName : String) : Option String :=
  match findNumSuffix "g".toList productName.toList with
  | some amount => some (renderSizeAmount amount)
  | none =>
    match findNumSuffix "kg".toList productName.toList with
    | some amount => some (renderSizeAmount (amount * 1000))
    | none =>
      match findNumSuffix "gram".toList productName.toList with
      | some amount => some (renderSizeAmount amount)
      | none => none

/-- First alternative of an alternation `(a|b|...)\b` that matches
case-insensitively at the head of `l` with a word boundary after it,
returning the remainder (regex alternation tries alternatives left to
right and retries the next one when the boundary fails). -/
def altBoundary (alts : List (List Char)) (l : List Char) : Option (List Char) :=
  match alts with
  | [] => none
  | a :: rest =>
    match ciPrefixStrip a l with
    | some r => if boundaryOk r then some r else altBoundary rest l
    | none => altBoundary rest l

/-- Match of `/\s*\d+\s*(g|kg|gram|kilo)\b/i` starting at the head of `l`
(first regex of `getBaseProductName`, `src/utils/product-grouping.js`
line 85), returning the remainder after the match. -/
def matchSizeClause (l : List Char) : Option (List Char) :=
  let l₁ := l.dropWhile jsIsSpace
  let ds := l₁.takeWhile Char.isDigit
  if ds.isEmpty then none
  else
    let l₂ := (l₁.dropWhile Char.isDigit).dropWhile jsIsSpace
    altBoundary ["g".toList, "kg".toList, "gram".toList, "kilo".toList] l₂

/-- Match of `/\s*\d+\s*x\s*\d+\s*(g|kg)\b/i` starting at the head of `l`
(second regex of `getBaseProductName`, `src/utils/product-grouping.js`
line 86), returning the remainder after the match. -/
def matchMultiClause (l : List Char) : Option (List Char) :=
  let l₁ := l.dropWhile jsIsSpace
  let ds := l₁.takeWhile Char.isDigit
  if ds.isEmpty then none
  else
    match (l₁.dropWhile Char.isDigit).dropWhile jsIsSpace with
    | [] => none
    | c :: l₂ =>
      if c.toLower = 'x' then
        let l₃ := l₂.dropWhile jsIsSpace
        let ds₂ := l₃.takeWhile Char.isDigit
        if ds₂.isEmpty then none
        else
          altBoundary ["g".toList, "kg".toList]
            ((l₃.dropWhile Char.isDigit).dropWhile jsIsSpace)
      else none

/-- Fuel-driven global delete: `str.replace(re, '')` with a global regex,
scanning left to right, removing each match and resuming after it.  Every
match consumes at least one character, so fuel equal to the input length
makes the fuel-exhaustion branch unreachable. -/
def globalDeleteAux (m : List Char → Option (List Char)) :
    Nat → List Char → List Char
  | _, [] => []
  | 0, l => l
  | Nat.succ fuel, c :: t =>
    match m (c :: t) with
    | some r => globalDeleteAux m fuel r
    | none => c :: globalDeleteAux m fuel t

/-- `str.replace(re, '')` for a global regex `re` modelled by matcher `m`. -/
def globalDelete (m : List Char → Option (List Char)) (l : List Char) :
    List Char :=
  globalDeleteAux m l.length l

/-- JS `String.prototype.trim()`. -/
def trimChars (l : List Char) : List Char :=
  ((l.dropWhile jsIsSpace).reverse.dropWhile jsIsSpace).reverse

/-- `getBaseProductName` (`src/utils/product-grouping.js` lines 83-88):
globally delete `\s*\d+\s*(g|kg|gram|kilo)\b`, then
`\s*\d+\s*x\s*\d+\s*(g|kg)\b`, then trim. -/
def getBaseProductName (productName : String) : String :=
  String.mk (trimChars
    (globalDelete matchMultiClause (globalDelete matchSizeClause productName.toList)))

/-- The fields of a product row read by `isSameProductGroup`. -/
structure GProduct where
  product_group_id : Option String
  name : String
deriving DecidableEq, Repr

/-- JS truthiness of a nullable string field. -/
def jsTruthyOptStr : Option String → Bool
  | some s => s != ""
  | none => false

/-- `isSameProductGroup` (`src/utils/product-grouping.js` lines 67-78): when
both products carry a truthy `product_group_id`, compare the ids; otherwise
fall back to comparing the size-stripped base names. -/
def isSameProductGroup (p1 p2 : GProduct) : Bool :=
  if jsTruthyOptStr p1.product_group_id && jsTruthyOptStr p2.product_group_id then
    p1.product_group_id == p2.product_group_id
  else
    getBaseProductName p1.name == getBaseProductName p2.name

/-! ## `src/utils/preferences.js` -/

/-- One constraint rule of the preference config: a `when` predicate and a
`require` predicate, each a JS object modelled as an association list.
(`constraint.when || {}` / `constraint.require || {}` make an absent
predicate the empty object, which is the same as modelling it as `[]`;
a literally `null` entry in the constraints array is skipped by the JS
loop, which is likewise equivalent to the empty rule.) -/
structure PrefConstraint where
  cwhen : List (String × JSVal)
  crequire : List (String × JSVal)
deriving Repr

/-- The preference config consumed by `scoreProduct`: the `enabled` flag,
insertion-ordered scoring dimensions mapping a dimension name to its value
map, the constraint list, and the optional `min_score` (absent or
non-numeric `min_score` defaults to 0 via
`typeof prefs.min_score === 'number' ? prefs.min_score : 0`). -/
structure PrefsConfig where
  enabled : Bool
  dimensions : List (String × List (String × JSVal))
  constraints : List PrefConstraint
  min_score : Option Int
deriving Repr

/-- `matchesAll` (`src/utils/preferences.js` lines 150-171): every entry of
the pattern must match the corresponding attribute — strict equality when
the expected value is `undefined`/`null`, truthiness comparison for a
boolean expected value, otherwise case-insensitive comparison of the
stringified values (with `null`/`undefined` attributes stringifying to
`""`).  An empty pattern matches vacuously. -/
def matchesAll (attrs : List (String × JSVal)) (pattern : List (String × JSVal)) :
    Bool :=
  pattern.all (fun kv =>
    let value := jsGet attrs kv.1
    match kv.2 with
    | .undefVal => value == JSVal.undefVal
    | .null => value == JSVal.null
    | .bool b => jsTruthy value == b
    | expected =>
      let vStr := match value with
        | .undefVal => ""
        | .null => ""
        | v => jsToLowerStr (jsToString v)
      vStr == jsToLowerStr (jsToString expected))

/-- The result record of `scoreProduct`. -/
structure ScoreResult where
  score : Int
  accepted : Bool
  reasons : List String
deriving DecidableEq, Repr

/-- One step of the dimension-scoring loop of `scoreProduct`
(`src/utils/preferences.js` lines 130-141): skip `undefined`/`null`
attribute values; look up the lower-cased stringified value in the
dimension's value map (`hasOwnProperty` guard, default weight 0); add the
weight and push the trace string only when the weight is a non-zero
number. -/
def scoreDimStep (attrs : List (String × JSVal)) (acc : Int × List String)
    (dim : String × List (String × JSVal)) : Int × List String :=
  match jsGet attrs dim.1 with
  | .undefVal => acc
  | .null => acc
  | v =>
    let key := jsToLowerStr (jsToString v)
    let weight := match dim.2.lookup key with
      | some w => w
      | none => JSVal.num 0
    match weight with
    | .num w =>
      if w ≠ 0 then
        (acc.1 + w,
         acc.2 ++ [dim.1 ++ ":" ++ key ++ (if w ≥ 0 then "+" else "") ++ toString w])
      else acc
    | _ => acc

/-- `scoreProduct` (`src/utils/preferences.js` lines 106-145).  The JS
guard `!attrs || !prefs || prefs.enabled === false` reduces, for the
non-null records modelled here, to `enabled = false`.  The constraint loop
returns `constraint_failed` at the first rule whose `when` matches while
its `require` does not (modelled by `find?`); otherwise the dimension loop
accumulates the score and trace reasons, and
`accepted = score >= min_score`. -/
def scoreProduct (attrs : List (String × JSVal)) (prefs : PrefsConfig) :
    ScoreResult :=
  if prefs.enabled = false then
    { score := 0, accepted := false, reasons := ["preferences_disabled"] }
  else
    let minScore := prefs.min_score.getD 0
    match prefs.constraints.find?
        (fun c => matchesAll attrs c.cwhen && !matchesAll attrs c.crequire) with
    | some _ => { score := 0, accepted := false, reasons := ["constraint_failed"] }
    | none =>
      let sr := prefs.dimensions.foldl (scoreDimStep attrs) (0, [])
      { score := sr.1, accepted := decide (sr.1 ≥ minScore), reasons := sr.2 }

/-! ## `src/database/database.js` -/

/-- The transition-classification record returned by
`getProductAvailabilityChange` (restricted to the fields every branch
produces). -/
structure AvailChange where
  isNewlyAvailable : Bool
  isNewlyUnavailable : Bool
  isStateChange : Bool
deriving DecidableEq, Repr

/-- `getProductAvailabilityChange` (`src/database/database.js` lines
366-396) as a query over the availability history of one product, newest
record first (`ORDER BY checked_at DESC`), with `available = 1` modelled
as `true`.  `LIMIT 2` is the `take 2`; the `recentHistory.length < 2`
branch computes `isNewlyAvailable = length > 0 && rec[0].available === 1`,
`isNewlyUnavailable = length > 0 && rec[0].available === 0` and
`isStateChange = (length === 1)`; with two records it compares the newest
against the second newest. -/
def getProductAvailabilityChange (history : List Bool) : AvailChange :=
  match history.take 2 with
  | [] => { isNewlyAvailable := false, isNewlyUnavailable := false,
            isStateChange := false }
  | [c] => { isNewlyAvailable := c, isNewlyUnavailable := !c,
             isStateChange := true }
  | c :: p :: _ => { isNewlyAvailable := c && !p, isNewlyUnavailable := !c && p,
                     isStateChange := c != p }

/-- One `availability_history` row (the columns the modelled queries
read). -/
structure ARec where
  available : Bool
  price : Int
deriving DecidableEq, Repr

/-- One `products` row together with its availability history, newest
record first (append-only, so the SQL `MAX(id)` record is the head). -/
structure ProductRow where
  id : Nat
  name : String
  roastery_name : String
  history : List ARec
deriving DecidableEq, Repr

/-- The scrape-batch key `` `${name}|||${roastery_name}` `` built in
`checkProducts` (`src/monitor.js` lines 151-153 and 285). -/
def productKey (p : ProductRow) : String :=
  p.name ++ "|||" ++ p.roastery_name

/-- The `current_price` column of the `getAvailableProducts` join: the
price of the product's most recent availability record. -/
def currentPrice (p : ProductRow) : Int :=
  match p.history.head? with
  | some r => r.price
  | none => 0

/-- The availability test of the `getAvailableProducts` join: the product
has an availability record and its most recent one has `available = 1`. -/
def latestAvailable (p : ProductRow) : Bool :=
  match p.history.head? with
  | some r => r.available
  | none => false

/-- `getAvailableProducts` (`src/database/database.js` lines 312-324):
products whose most recent availability record exists and has
`available = 1`. -/
def getAvailableProducts (db : List ProductRow) : List ProductRow :=
  db.filter latestAvailable

/-- `recordAvailability` (`src/database/database.js` lines 197-202):
append a new availability record for the product with the given id (the
new row becomes the most recent one). -/
def recordAvailability (db : List ProductRow) (pid : Nat) (rec : ARec) :
    List ProductRow :=
  db.map (fun p => if p.id = pid then { p with history := rec :: p.history } else p)

/-- The missing-from-scrape step at the end of `checkProducts`
(`src/monitor.js` lines 282-300): for every previously available product
whose key is not in the scraped-keys set, record a new unavailable
availability record at its last known price. -/
def markMissingUnavailable (db : List ProductRow) (scrapedKeys : List String) :
    List ProductRow :=
  (getAvailableProducts db).foldl
    (fun acc p =>
      if productKey p ∈ scrapedKeys then acc
      else recordAvailability acc p.id { available := false, price := currentPrice p })
    db

/-! ## `src/processors/deep-scanner.js` and the legacy aggregation in
`src/monitor.js`

Both paths fold the same-group observations of one check cycle into a
single notification-candidate entry.  The entry is located by size-stripped
base name and favorite name; since the claims quantify over batches of
observations that already share one group, the model tracks that single
entry (`none` before the first observation) and omits the fields the
claims do not touch (`favoriteName`, `matchedTerms`, `baseName`, ids). -/

/-- One raw scraped observation, restricted to the fields the aggregation
reads. -/
structure Obs where
  name : String
  organic : Bool
  price : Int
deriving DecidableEq, Repr

/-- JS `String.prototype.includes`. -/
def containsSeq (needle : List Char) : List Char → Bool
  | [] => needle.isEmpty
  | c :: t => needle.isPrefixOf (c :: t) || containsSeq needle t

/-- JS `hay.includes(needle)` on strings. -/
def hasSubstr (needle hay : String) : Bool :=
  containsSeq needle.toList hay.toList

/-- `extractSizeFromName` (`src/processors/deep-scanner.js` lines 303-312,
duplicated at `src/monitor.js` lines 717-725): lower-case the name and
look for the literal size markers; only `"250g"` and `"1kg"` are ever
returned. -/
def extractSizeFromName (productName : String) : Option String :=
  let name := jsToLowerStr productName
  if hasSubstr "250g" name || hasSubstr "250 g" name then some "250g"
  else if hasSubstr "1kg" name || hasSubstr "1 kg" name || hasSubstr "1000g" name then
    some "1kg"
  else none

/-- `shouldReplaceProduct` (`src/processors/deep-scanner.js` lines 329-343,
duplicated at `src/monitor.js` lines 1037-1051): prefer organic, then
prefer 1kg over 250g at equal organic status. -/
def shouldReplaceProduct (existingProduct newProduct : Obs)
    (existingSize newSize : Option String) : Bool :=
  if newProduct.organic && !existingProduct.organic then true
  else if !newProduct.organic && existingProduct.organic then false
  else if newSize == some "1kg" && existingSize == some "250g" then true
  else false

/-- Insertion-ordered JS object write used for `sizeData[currentSize] = v`:
overwrite in place when the key exists, else append. -/
def setAssoc {β : Type} (o : List (String × β)) (k : String) (v : β) :
    List (String × β) :=
  match o with
  | [] => [(k, v)]
  | (k₀, v₀) :: t => if k₀ = k then (k, v) :: t else (k₀, v₀) :: setAssoc t k v

/-- The sort comparator passed to `availableSizes.sort` in both aggregation
paths: 250g sorts before 1kg, every other pair compares equal. -/
def sizeCmp (a b : String) : Int :=
  if a = "250g" ∧ b = "1kg" then -1
  else if a = "1kg" ∧ b = "250g" then 1
  else 0

/-- Stable insertion of one element under a comparator (elements comparing
≤ 0 against the new one stay in front of it). -/
def insertCmp (cmp : String → String → Int) (x : String) :
    List String → List String
  | [] => [x]
  | y :: t => if cmp y x ≤ 0 then y :: insertCmp cmp x t else x :: y :: t

/-- `Array.prototype.sort(cmp)` modelled as a stable insertion sort (the
arrays this code sorts hold at most the two distinct tokens `"250g"` and
`"1kg"`, on which every stable comparator sort agrees). -/
def jsSortCmp (cmp : String → String → Int) (l : List String) : List String :=
  l.foldl (fun acc x => insertCmp cmp x acc) []

/-- The aggregated notification-candidate entry for one product group. -/
structure AggEntry where
  product : Obs
  availableSizes : List String
  sizeData : List (String × Int × Obs)
deriving DecidableEq, Repr

/-- Creation of a fresh entry for the group's first observation
(`src/processors/deep-scanner.js` lines 244-260, `src/monitor.js` lines
216-231): `availableSizes = [currentSize].filter(Boolean)` and `sizeData`
seeded only when a size was detected. -/
def initEntry (o : Obs) : AggEntry :=
  match extractSizeFromName o.name with
  | some s => { product := o, availableSizes := [s], sizeData := [(s, (o.price, o))] }
  | none => { product := o, availableSizes := [], sizeData := [] }

/-- The `availableSizes` update on an existing entry (push the new size if
detected and not already present, then sort with `sizeCmp`). -/
def mergeSizes (e : AggEntry) (o : Obs) : List String :=
  match extractSizeFromName o.name with
  | some s =>
    if s ∈ e.availableSizes then e.availableSizes
    else jsSortCmp sizeCmp (e.availableSizes ++ [s])
  | none => e.availableSizes

/-- The `sizeData` update on an existing entry (store price and source
observation under the detected size, overwriting any earlier entry for the
same size). -/
def mergeSizeData (e : AggEntry) (o : Obs) : List (String × Int × Obs) :=
  match extractSizeFromName o.name with
  | some s => setAssoc e.sizeData s (o.price, o)
  | none => e.sizeData

/-- One incremental aggregation step of the deep-scan path
(`addToFavoriteResults`, `src/processors/deep-scanner.js` lines 236-301):
merge sizes and size data, then replace the representative product iff
`shouldReplaceProduct` says so (the existing size is read from the current
representative's name before the replacement). -/
def deepScanStep (st : Option AggEntry) (o : Obs) : Option AggEntry :=
  match st with
  | none => some (initEntry o)
  | some e =>
    some { product :=
             if shouldReplaceProduct e.product o (extractSizeFromName e.product.name)
                 (extractSizeFromName o.name) then o
             else e.product
           availableSizes := mergeSizes e o
           sizeData := mergeSizeData e o }

/-- The `sizeData` update of the legacy monitor path: unlike the deep-scan
path, the write `sizeData[currentSize] = {price, product}` sits inside the
guard `if (currentSize && !existingMatch.availableSizes.includes(currentSize))`
(`src/monitor.js` lines 238-251), so an already-present size token leaves
`sizeData` untouched and the first observation of a token keeps its
price and source. -/
def monitorMergeSizeData (e : AggEntry) (o : Obs) : List (String × Int × Obs) :=
  match extractSizeFromName o.name with
  | some s =>
    if s ∈ e.availableSizes then e.sizeData
    else setAssoc e.sizeData s (o.price, o)
  | none => e.sizeData

/-- One incremental aggregation step of the legacy favorites path in
`checkProducts` (`src/monitor.js` lines 206-252): the same size-list
merging as the deep-scan path, the guarded `sizeData` write, and no
replacement of the representative product of an existing entry. -/
def monitorStep (st : Option AggEntry) (o : Obs) : Option AggEntry :=
  match st with
  | none => some (initEntry o)
  | some e =>
    some { product := e.product
           availableSizes := mergeSizes e o
           sizeData := monitorMergeSizeData e o }

/-- Aggregation of a same-group batch in the deep-scan path. -/
def deepScanAggregate (batch : List Obs) : Option AggEntry :=
  batch.foldl deepScanStep none

/-- Aggregation of a same-group batch in the legacy monitor path. -/
def monitorAggregate (batch : List Obs) : Option AggEntry :=
  batch.foldl monitorStep none

/-! ## Claim theorems -/

/-- C1: `getProductAvailabilityChange`, on a product's availability history
ordered newest-first (the just-written record included), classifies the
latest transition as the claim states: with fewer than two records,
`isNewlyAvailable` holds iff a record exists and the newest is available
and `isNewlyUnavailable` holds iff a record exists and the newest is
unavailable (including on the literal first-ever observation); with two or
more records it compares the newest against the second-newest, and equal
states yield both flags false. -/
theorem getProductAvailabilityChange_classifies (history : List Bool) :
    (history.length < 2 →
      (((getProductAvailabilityChange history).isNewlyAvailable = true ↔
         0 < history.length ∧ history.headD false = true) ∧
       ((getProductAvailabilityChange history).isNewlyUnavailable = true ↔
         0 < history.length ∧ history.headD true = false))) ∧
    (∀ c p rest, history = c :: p :: rest →
      (((getProductAvailabilityChange history).isNewlyAvailable = true ↔
         c = true ∧ p = false) ∧
       ((getProductAvailabilityChange history).isNewlyUnavailable = true ↔
         c = false ∧ p = true) ∧
       (c = p → (getProductAvailabilityChange history).isNewlyAvailable = false ∧
                (getProductAvailabilityChange history).isNewlyUnavailable = false))) := by
  rcases history with _ | ⟨c, _ | ⟨p, rest⟩⟩
  · exact ⟨fun _ => by simp [getProductAvailabilityChange], fun c p rest h => by cases h⟩
  · refine ⟨fun _ => ?_, fun c2 p2 rest2 h => by cases h⟩
    cases c <;> simp [getProductAvailabilityChange]
  · refine ⟨fun h => by simp at h; omega, ?_⟩
    intro c2 p2 rest2 h
    injection h with h1 h23
    injection h23 with h2 h3
    subst h1
    subst h2
    cases c <;> cases p <;> simp [getProductAvailabilityChange]

/-- Witness for C1: a first-ever available sighting is flagged newly
available, and a history whose newest record is available after a previous
unavailable one (newest-first `[true, false]`) is flagged newly
available. -/
theorem getProductAvailabilityChange_classifies_witness :
    (getProductAvailabilityChange [true]).isNewlyAvailable = true ∧
    (getProductAvailabilityChange [true, false]).isNewlyAvailable = true :=
  ⟨(((getProductAvailabilityChange_classifies [true]).1 (by decide)).1).mpr
      ⟨by decide, rfl⟩,
   (((getProductAvailabilityChange_classifies [true, false]).2 true false [] rfl).1).mpr
      ⟨rfl, rfl⟩⟩

/-- C9: `extractSize` recognizes integer gram and kilogram patterns,
normalizes kilograms to grams, renders totals of at least 1000 grams as
kilograms and smaller totals as grams, returns `none` when no pattern
matches, and renders a literal `"1500g"` as `"1.5kg"`. -/
theorem extractSize_spec_examples :
    extractSize "X 250g" = some "250g" ∧
    extractSize "X 1kg" = some "1kg" ∧
    extractSize "X 1000g" = some "1kg" ∧
    extractSize "X" = none ∧
    extractSize "1500g" = some "1.5kg" := by
  refine ⟨?_, ?_, ?_, ?_, ?_⟩ <;> decide

/-! ### Scoring-engine helpers shared by the preference claims -/

/-- Claim-side reading of one dimension's contribution to the score: 0 for
an absent (`undefined`/`null`) attribute, otherwise the numeric weight
found in the dimension's value map under the lower-cased stringified
attribute value (0 when the key is absent or the stored weight is not a
number). -/
def dimContribution (attrs : List (String × JSVal))
    (dim : String × List (String × JSVal)) : Int :=
  match jsGet attrs dim.1 with
  | .undefVal => 0
  | .null => 0
  | v =>
    match dim.2.lookup (jsToLowerStr (jsToString v)) with
    | some (.num w) => w
    | _ => 0

/-- Claim-side reading of one dimension's trace entry: the string
`"<dimension>:<value><sign><weight>"` exactly when the attribute is
present and the weight found is a non-zero number, `none` otherwise. -/
def dimTrace (attrs : List (String × JSVal))
    (dim : String × List (String × JSVal)) : Option String :=
  match jsGet attrs dim.1 with
  | .undefVal => none
  | .null => none
  | v =>
    match dim.2.lookup (jsToLowerStr (jsToString v)) with
    | some (.num w) =>
      if w ≠ 0 then
        some (dim.1 ++ ":" ++ jsToLowerStr (jsToString v) ++
          (if w ≥ 0 then "+" else "") ++ toString w)
      else none
    | _ => none

theorem scoreDimStep_eq (attrs : List (String × JSVal)) (acc : Int × List String)
    (dim : String × List (String × JSVal)) :
    scoreDimStep attrs acc dim =
      (acc.1 + dimContribution attrs dim, acc.2 ++ (dimTrace attrs dim).toList) := by
  unfold scoreDimStep dimContribution dimTrace
  rcases hget : jsGet attrs dim.1 with _ | _ | b | n | s <;> simp only [hget]
  · simp
  · simp
  · rcases hl : dim.2.lookup (jsToLowerStr (jsToString (JSVal.bool b))) with _ | w
    · simp [hl]
    · rcases w with _ | _ | wb | wn | ws <;> simp [hl]
      rcases eq_or_ne wn 0 with hz | hz <;> simp [hz]
  · rcases hl : dim.2.lookup (jsToLowerStr (jsToString (JSVal.num n))) with _ | w
    · simp [hl]
    · rcases w with _ | _ | wb | wn | ws <;> simp [hl]
      rcases eq_or_ne wn 0 with hz | hz <;> simp [hz]
  · rcases hl : dim.2.lookup (jsToLowerStr (jsToString (JSVal.str s))) with _ | w
    · simp [hl]
    · rcases w with _ | _ | wb | wn | ws <;> simp [hl]
      rcases eq_or_ne wn 0 with hz | hz <;> simp [hz]

theorem scoreDim_foldl (attrs : List (String × JSVal)) :
    ∀ (dims : List (String × List (String × JSVal))) (s₀ : Int) (rs₀ : List String),
      dims.foldl (scoreDimStep attrs) (s₀, rs₀) =
        (s₀ + (dims.map (dimContribution attrs)).sum,
         rs₀ ++ dims.filterMap (dimTrace attrs)) := by
  intro dims
  induction dims with
  | nil => intro s₀ rs₀; simp
  | cons dim rest ih =>
    intro s₀ rs₀
    rw [List.foldl_cons, scoreDimStep_eq, ih]
    rcases ht : dimTrace attrs dim with _ | tr <;>
      simp [List.filterMap_cons, ht, add_assoc]

theorem constraints_find_eq_none (attrs : List (String × JSVal)) (prefs : PrefsConfig)
    (hnc : ∀ c ∈ prefs.constraints,
        matchesAll attrs c.cwhen = true → matchesAll attrs c.crequire = true) :
    prefs.constraints.find?
      (fun c => matchesAll attrs c.cwhen && !matchesAll attrs c.crequire) = none := by
  rw [List.find?_eq_none]
  intro c hmem
  have := hnc c hmem
  rcases h1 : matchesAll attrs c.cwhen <;> rcases h2 : matchesAll attrs c.crequire <;>
    simp_all

theorem scoreProduct_no_constraint_eq (attrs : List (String × JSVal))
    (prefs : PrefsConfig) (hen : prefs.enabled = true)
    (hnc : ∀ c ∈ prefs.constraints,
        matchesAll attrs c.cwhen = true → matchesAll attrs c.crequire = true) :
    scoreProduct attrs prefs =
      { score := (prefs.dimensions.map (dimContribution attrs)).sum
        accepted := decide ((prefs.dimensions.map (dimContribution attrs)).sum ≥
          prefs.min_score.getD 0)
        reasons := prefs.dimensions.filterMap (dimTrace attrs) } := by
  have hfind := constraints_find_eq_none attrs prefs hnc
  simp [scoreProduct, hen, hfind, scoreDim_foldl]

/-- C7: for every attribute bag and enabled preference config, if any
constraint rule's `when` predicate matches the attributes while its
`require` predicate does not, `scoreProduct` returns score 0 and
`accepted = false`, regardless of the configured dimension weights. -/
theorem scoreProduct_constraint_shortcircuit (attrs : List (String × JSVal))
    (prefs : PrefsConfig) (hen : prefs.enabled = true)
    (hc : ∃ c ∈ prefs.constraints,
        matchesAll attrs c.cwhen = true ∧ matchesAll attrs c.crequire = false) :
    scoreProduct attrs prefs =
      { score := 0, accepted := false, reasons := ["constraint_failed"] } := by
  have hsome : (prefs.constraints.find?
      (fun c => matchesAll attrs c.cwhen && !matchesAll attrs c.crequire)).isSome := by
    rw [List.find?_isSome]
    obtain ⟨c, hc1, hc2, hc3⟩ := hc
    exact ⟨c, hc1, by simp [hc2, hc3]⟩
  obtain ⟨c, hfind⟩ := Option.isSome_iff_exists.mp hsome
  simp [scoreProduct, hen, hfind]

/-- Witness for C7: the spec's example — constraint
`when {decaf: true}, require {roast: "medium"}` with attributes
`{decaf: true, roast: "dark"}` is rejected outright even though a
dimension would award `roast: dark` a weight of 5. -/
theorem scoreProduct_constraint_shortcircuit_witness :
    scoreProduct [("decaf", JSVal.bool true), ("roast", JSVal.str "dark")]
      { enabled := true
        dimensions := [("roast", [("dark", JSVal.num 5)])]
        constraints := [{ cwhen := [("decaf", JSVal.bool true)]
                          crequire := [("roast", JSVal.str "medium")] }]
        min_score := none } =
      { score := 0, accepted := false, reasons := ["constraint_failed"] } :=
  scoreProduct_constraint_shortcircuit _ _ rfl
    ⟨{ cwhen := [("decaf", JSVal.bool true)]
       crequire := [("roast", JSVal.str "medium")] },
     by simp, by decide, by decide⟩

/-- C8: when no constraint rejects, `scoreProduct`'s score is the sum over
the configured dimensions of the integer weight found under the
lower-cased stringified attribute value (for attributes present on the
product), each contributing dimension appends its
`"<dimension>:<value><sign><weight>"` trace string, and
`accepted = score >= min_score` with `min_score` defaulting to 0 when
unspecified. -/
theorem scoreProduct_additive_scoring (attrs : List (String × JSVal))
    (prefs : PrefsConfig) (hen : prefs.enabled = true)
    (hnc : ∀ c ∈ prefs.constraints,
        matchesAll attrs c.cwhen = true → matchesAll attrs c.crequire = true) :
    (scoreProduct attrs prefs).score =
      (prefs.dimensions.map (dimContribution attrs)).sum ∧
    (scoreProduct attrs prefs).reasons = prefs.dimensions.filterMap (dimTrace attrs) ∧
    (scoreProduct attrs prefs).accepted =
      decide ((prefs.dimensions.map (dimContribution attrs)).sum ≥
        prefs.min_score.getD 0) := by
  rw [scoreProduct_no_constraint_eq attrs prefs hen hnc]
  exact ⟨rfl, rfl, rfl⟩

/-- The concrete config of C8's example:
`{dimensions: {organic: {"true": 3}}, min_score: 3}`. -/
def c8prefs : PrefsConfig :=
  { enabled := true
    dimensions := [("organic", [("true", JSVal.num 3)])]
    constraints := []
    min_score := some 3 }

/-- Witness for C8: with the example config, `{organic: true}` scores 3 and
is accepted; `{organic: false}` scores 0 and is rejected. -/
theorem scoreProduct_additive_scoring_witness :
    (scoreProduct [("organic", JSVal.bool true)] c8prefs).score = 3 ∧
    (scoreProduct [("organic", JSVal.bool true)] c8prefs).accepted = true ∧
    (scoreProduct [("organic", JSVal.bool false)] c8prefs).score = 0 ∧
    (scoreProduct [("organic", JSVal.bool false)] c8prefs).accepted = false := by
  have h1 := scoreProduct_additive_scoring [("organic", JSVal.bool true)] c8prefs rfl
    (by simp [c8prefs])
  have h2 := scoreProduct_additive_scoring [("organic", JSVal.bool false)] c8prefs rfl
    (by simp [c8prefs])
  exact ⟨h1.1.trans (by decide), h1.2.2.trans (by decide),
         h2.1.trans (by decide), h2.2.2.trans (by decide)⟩

/-- C10: in `scoreProduct`'s dimension loop (reached when no constraint
rejects), the reasons list is exactly one trace entry per dimension that
contributed a non-zero numeric weight and nothing else, the score is the
sum of the per-dimension contributions, and a value whose lower-cased key
is absent from the dimension's value map contributes 0 with no trace, as
do values mapped to an explicit 0 or to a non-numeric weight. -/
theorem scoreProduct_trace_exactness (attrs : List (String × JSVal))
    (prefs : PrefsConfig) (hen : prefs.enabled = true)
    (hnc : ∀ c ∈ prefs.constraints,
        matchesAll attrs c.cwhen = true → matchesAll attrs c.crequire = true) :
    (scoreProduct attrs prefs).reasons = prefs.dimensions.filterMap (dimTrace attrs) ∧
    (scoreProduct attrs prefs).score =
      (prefs.dimensions.map (dimContribution attrs)).sum ∧
    (∀ dim : String × List (String × JSVal),
        (jsGet attrs dim.1 = .undefVal ∨ jsGet attrs dim.1 = .null ∨
          dim.2.lookup (jsToLowerStr (jsToString (jsGet attrs dim.1))) = none) →
        dimContribution attrs dim = 0 ∧ dimTrace attrs dim = none) ∧
    (∀ dim : String × List (String × JSVal),
        dim.2.lookup (jsToLowerStr (jsToString (jsGet attrs dim.1))) =
          some (JSVal.num 0) →
        dimTrace attrs dim = none) ∧
    (∀ (dim : String × List (String × JSVal)) (w : JSVal),
        dim.2.lookup (jsToLowerStr (jsToString (jsGet attrs dim.1))) = some w →
        (∀ n : Int, w ≠ JSVal.num n) →
        dimContribution attrs dim = 0 ∧ dimTrace attrs dim = none) := by
  rw [scoreProduct_no_constraint_eq attrs prefs hen hnc]
  refine ⟨rfl, rfl, ?_, ?_, ?_⟩
  · intro dim h
    rcases hget : jsGet attrs dim.1 with _ | _ | b | n | s
    · simp [dimContribution, dimTrace, hget]
    · simp [dimContribution, dimTrace, hget]
    all_goals (rw [hget] at h
               rcases h with h | h | h
               · exact absurd h (by simp)
               · exact absurd h (by simp)
               · simp [dimContribution, dimTrace, hget, h])
  · intro dim h
    rcases hget : jsGet attrs dim.1 with _ | _ | b | n | s
    · simp [dimTrace, hget]
    · simp [dimTrace, hget]
    all_goals (rw [hget] at h
               simp [dimTrace, hget, h])
  · intro dim w hl hw
    rcases w with _ | _ | wb | wn | ws
    case num => exact absurd rfl (hw wn)
    all_goals (rcases hget : jsGet attrs dim.1 with _ | _ | b | n | s
               · simp [dimContribution, dimTrace, hget]
               · simp [dimContribution, dimTrace, hget]
               all_goals (rw [hget] at hl
                          simp [dimContribution, dimTrace, hget, hl]))

/-- A config exercising C10's cases: a contributing weight, an explicit
zero weight, a non-numeric weight and an absent attribute. -/
def c10prefs : PrefsConfig :=
  { enabled := true
    dimensions := [("organic", [("true", JSVal.num 3)]),
                   ("roast", [("dark", JSVal.num 0)]),
                   ("country", [("kenya", JSVal.str "oops")]),
                   ("process", [("washed", JSVal.num 2)])]
    constraints := []
    min_score := none }

/-- Witness for C10: only the organic dimension (non-zero numeric weight)
produces a trace entry; the zero-weight roast, the non-numeric country
weight and the absent process attribute produce none. -/
theorem scoreProduct_trace_exactness_witness :
    (scoreProduct [("organic", JSVal.bool true), ("roast", JSVal.str "dark"),
        ("country", JSVal.str "Kenya")] c10prefs).reasons = ["organic:true+3"] ∧
    (scoreProduct [("organic", JSVal.bool true), ("roast", JSVal.str "dark"),
        ("country", JSVal.str "Kenya")] c10prefs).score = 3 := by
  have h := scoreProduct_trace_exactness [("organic", JSVal.bool true),
    ("roast", JSVal.str "dark"), ("country", JSVal.str "Kenya")] c10prefs rfl
    (by simp [c10prefs])
  exact ⟨h.1.trans (by decide), h.2.1.trans (by decide)⟩

/-- C2 (amended): `generateProductGroupId` returns null exactly when the
attribute bag itself is absent (the JS `!aiTags` guard); the all-null
fallback bag produced on tagging failure is a truthy object and therefore
still yields a group id (hash of `"<roastery>:unknown"`).  Products whose
group ids are both truthy are compared by id, but when either group id is
missing `isSameProductGroup` falls back to base-name equality, so two
products without group ids and with equal base names are treated as the
same group. -/
theorem groupId_null_and_grouping_fallback (hash : String → String)
    (aiTags : Option AITags) (r : String) :
    (generateProductGroupId hash aiTags r = none ↔ aiTags = none) ∧
    (∀ p1 p2 : GProduct, jsTruthyOptStr p1.product_group_id = true →
        jsTruthyOptStr p2.product_group_id = true →
        (isSameProductGroup p1 p2 = true ↔ p1.product_group_id = p2.product_group_id)) ∧
    (∀ p1 p2 : GProduct,
        (jsTruthyOptStr p1.product_group_id && jsTruthyOptStr p2.product_group_id) = false →
        (isSameProductGroup p1 p2 = true ↔
          getBaseProductName p1.name = getBaseProductName p2.name)) := by
  refine ⟨?_, ?_, ?_⟩
  · cases aiTags <;> simp [generateProductGroupId, generateProductGroupPrehash]
  · intro p1 p2 h1 h2
    simp [isSameProductGroup, h1, h2]
  · intro p1 p2 h
    simp [isSameProductGroup, h]

/-- Witness for C2 (amended): two products sharing the truthy group id
`"abc"` are the same group; with the id absent on one side the base-name
fallback compares `"Kaffe 250g"` and `"Kaffe 1kg"` equal. -/
theorem groupId_null_and_grouping_fallback_witness :
    isSameProductGroup ⟨some "abc", "X"⟩ ⟨some "abc", "Y"⟩ = true ∧
    isSameProductGroup ⟨none, "Kaffe 250g"⟩ ⟨some "abc", "Kaffe 1kg"⟩ = true :=
  ⟨((groupId_null_and_grouping_fallback id (some emptyTags) "r").2.1
      ⟨some "abc", "X"⟩ ⟨some "abc", "Y"⟩ (by decide) (by decide)).mpr rfl,
   ((groupId_null_and_grouping_fallback id (some emptyTags) "r").2.2
      ⟨none, "Kaffe 250g"⟩ ⟨some "abc", "Kaffe 1kg"⟩ (by decide)).mpr (by decide)⟩

/-- Counterexample for C2 as stated: the all-null fallback bag does not
yield a null group id — its pre-hash string is `"roastery:unknown"`, so the
id is the (non-null) hash of that string — and two products that both lack
a group id but share a name are treated as the same product group by
`isSameProductGroup`. -/
theorem groupId_fallbackBag_counterexample :
    generateProductGroupPrehash (some emptyTags) "Roastery" = some "roastery:unknown" ∧
    generateProductGroupPrehash (some emptyTags) "Roastery" ≠ none ∧
    isSameProductGroup ⟨none, "Kaffe"⟩ ⟨none, "Kaffe"⟩ = true := by
  refine ⟨by decide, by decide, by decide⟩

/-- `shouldReplaceProduct` in claim terms: it replaces iff the new
observation is organic while the current one is not, or the organic status
is equal and the new size is 1kg while the current is 250g. -/
theorem shouldReplaceProduct_iff (cur new : Obs) (es ns : Option String) :
    shouldReplaceProduct cur new es ns = true ↔
      ((new.organic = true ∧ cur.organic = false) ∨
       (new.organic = cur.organic ∧ ns = some "1kg" ∧ es = some "250g")) := by
  cases hn : new.organic <;> cases hc : cur.organic <;>
    simp [shouldReplaceProduct, hn, hc]

/-- The non-organic 250g observation of the claim's example pair. -/
def obsNonOrganic250 : Obs := { name := "Kaffe 250g", organic := false, price := 100 }

/-- The organic 1kg observation of the claim's example pair. -/
def obsOrganic1kg : Obs := { name := "Kaffe 1kg", organic := true, price := 300 }

/-- C5 (amended): in the deep-scan aggregation the representative is
replaced exactly under the claimed rule — the new observation is organic
and the current representative is not, or their organic status is equal
and the new size is 1kg while the current is 250g — ties keep the
first-seen representative, and the example pair ends with the organic
representative in both processing orders.  In the legacy favorites
aggregation of `checkProducts` (`src/monitor.js` lines 206-252), however,
the representative of an existing entry is never replaced (its
`shouldReplaceProduct` helper is never called there), so that path keeps
the first-seen observation. -/
theorem aggregation_representative_rule :
    (∀ (e : AggEntry) (o : Obs),
        (deepScanStep (some e) o).map (fun x => x.product) =
          some (if (o.organic = true ∧ e.product.organic = false) ∨
                   (o.organic = e.product.organic ∧
                    extractSizeFromName o.name = some "1kg" ∧
                    extractSizeFromName e.product.name = some "250g") then o
                else e.product)) ∧
    (∀ (e : AggEntry) (o : Obs),
        (monitorStep (some e) o).map (fun x => x.product) = some e.product) ∧
    (deepScanAggregate [obsNonOrganic250, obsOrganic1kg]).map (fun x => x.product) =
      some obsOrganic1kg ∧
    (deepScanAggregate [obsOrganic1kg, obsNonOrganic250]).map (fun x => x.product) =
      some obsOrganic1kg := by
  refine ⟨?_, ?_, by decide, by decide⟩
  · intro e o
    simp only [deepScanStep, Option.map_some]
    by_cases hcond : (o.organic = true ∧ e.product.organic = false) ∨
        (o.organic = e.product.organic ∧
         extractSizeFromName o.name = some "1kg" ∧
         extractSizeFromName e.product.name = some "250g")
    · rw [if_pos hcond]
      have hb := (shouldReplaceProduct_iff e.product o
        (extractSizeFromName e.product.name) (extractSizeFromName o.name)).mpr hcond
      simp [hb]
    · rw [if_neg hcond]
      have hb : shouldReplaceProduct e.product o
          (extractSizeFromName e.product.name) (extractSizeFromName o.name) = false := by
        rcases h : shouldReplaceProduct e.product o
            (extractSizeFromName e.product.name) (extractSizeFromName o.name)
        · rfl
        · exact absurd ((shouldReplaceProduct_iff e.product o
            (extractSizeFromName e.product.name) (extractSizeFromName o.name)).mp h) hcond
      simp [hb]
  · intro e o
    simp [monitorStep]

/-- Counterexample for C5 as stated: processing the example pair through
the legacy monitor aggregation (one of the two cited same-group
aggregation paths) in the order non-organic-250g first leaves the
non-organic observation as the final representative, so the replacement
rule does not govern that path and the outcome there depends on arrival
order. -/
theorem monitor_keeps_first_rep_counterexample :
    (monitorAggregate [obsNonOrganic250, obsOrganic1kg]).map (fun x => x.product) =
      some obsNonOrganic250 ∧
    obsNonOrganic250.organic = false ∧ obsOrganic1kg.organic = true := by
  refine ⟨by decide, rfl, rfl⟩

/-- Pointwise effect of the missing-from-scrape fold on one row. -/
def pointStep (keys : List String) (x : ProductRow) (p : ProductRow) : ProductRow :=
  if productKey p ∈ keys then x
  else if x.id = p.id then
    { x with history := { available := false, price := currentPrice p } :: x.history }
  else x

theorem foldl_record_map (keys : List String) :
    ∀ (todo db : List ProductRow),
      todo.foldl (fun acc p =>
        if productKey p ∈ keys then acc
        else recordAvailability acc p.id { available := false, price := currentPrice p }) db =
      db.map (fun r => todo.foldl (pointStep keys) r) := by
  intro todo
  induction todo with
  | nil => intro db; simp
  | cons p t ih =>
    intro db
    rw [List.foldl_cons]
    by_cases hk : productKey p ∈ keys
    · rw [if_pos hk, ih]
      apply List.map_congr_left
      intro r _
      rw [List.foldl_cons]
      congr 1
      simp [pointStep, hk]
    · rw [if_neg hk]
      rw [recordAvailability, ih, List.map_map]
      apply List.map_congr_left
      intro r _
      simp only [Function.comp_apply]
      rw [List.foldl_cons]
      congr 1
      simp [pointStep, hk]

theorem pointStep_skip (keys : List String) :
    ∀ (t : List ProductRow) (x : ProductRow),
      (∀ p ∈ t, productKey p ∈ keys ∨ p.id ≠ x.id) →
      t.foldl (pointStep keys) x = x := by
  intro t
  induction t with
  | nil => intro x _; rfl
  | cons p rest ih =>
    intro x h
    rw [List.foldl_cons]
    have hstep : pointStep keys x p = x := by
      rcases h p (by simp) with hk | hid
      · simp [pointStep, hk]
      · by_cases hk : productKey p ∈ keys
        · simp [pointStep, hk]
        · simp only [pointStep, if_neg hk]
          rw [if_neg (fun hd => hid hd.symm)]
    rw [hstep]
    exact ih x (fun q hq => h q (by simp [hq]))

theorem pointStep_hit (keys : List String) :
    ∀ (t : List ProductRow) (r : ProductRow),
      (t.map (fun p => p.id)).Nodup → r ∈ t → productKey r ∉ keys →
      (∀ p ∈ t, p.id = r.id → p = r) →
      t.foldl (pointStep keys) r =
        { r with history := { available := false, price := currentPrice r } :: r.history } := by
  intro t
  induction t with
  | nil => intro r _ hr _ _; cases hr
  | cons p rest ih =>
    intro r hnd hr hkey huniq
    rw [List.foldl_cons]
    by_cases hpr : p = r
    · subst hpr
      have hstep : pointStep keys p p =
          { p with history := { available := false, price := currentPrice p } :: p.history } := by
        simp [pointStep, hkey]
      rw [hstep]
      apply pointStep_skip
      intro q hq
      right
      have hqid : q.id ≠ p.id := by
        intro hqid
        have : p.id ∈ rest.map (fun p => p.id) := hqid ▸ List.mem_map_of_mem _ hq
        exact (List.nodup_cons.mp hnd).1 this
      simpa using hqid
    · have hpid : p.id ≠ r.id := fun h => hpr (huniq p (by simp) h)
      have hstep : pointStep keys r p = r := by
        by_cases hk : productKey p ∈ keys
        · simp [pointStep, hk]
        · simp only [pointStep, if_neg hk]
          rw [if_neg (fun hd => hpid hd.symm)]
      rw [hstep]
      have hrrest : r ∈ rest := by
        rcases List.mem_cons.mp hr with h | h
        · exact absurd h.symm hpr
        · exact h
      exact ih r (List.nodup_cons.mp hnd).2 hrrest hkey
        (fun q hq hqid => huniq q (by simp [hq]) hqid)

/-- C3: at the end of a check cycle, every product whose most recent
availability record is available and whose `(name, roastery)` key is not
among the keys observed in the current scrape batch receives a new
availability record with `available = false` at its last known price;
products observed in the batch, or whose latest record is already
unavailable, are unchanged by this step.  (Distinct products carry
distinct row ids, as the database's primary key guarantees.) -/
theorem checkProducts_marks_missing_unavailable (db : List ProductRow)
    (keys : List String) (hnd : (db.map (fun p => p.id)).Nodup) :
    markMissingUnavailable db keys =
      db.map (fun r =>
        if latestAvailable r = true ∧ productKey r ∉ keys then
          { r with history := { available := false, price := currentPrice r } :: r.history }
        else r) := by
  have hinj := List.inj_on_of_nodup_map hnd
  rw [markMissingUnavailable, getAvailableProducts, foldl_record_map]
  apply List.map_congr_left
  intro r hr
  by_cases hpred : latestAvailable r = true
  · by_cases hkey : productKey r ∈ keys
    · rw [if_neg (by simp [hkey])]
      apply pointStep_skip
      intro p hp
      by_cases hid : p.id = r.id
      · left
        have hpr : p = r := hinj (List.mem_of_mem_filter hp) hr hid
        rwa [hpr]
      · right; exact hid
    · rw [if_pos ⟨hpred, hkey⟩]
      apply pointStep_hit
      · exact ((List.filter_sublist db).map (fun p => p.id)).nodup hnd
      · exact List.mem_filter.mpr ⟨hr, hpred⟩
      · exact hkey
      · intro p hp hid
        exact hinj (List.mem_of_mem_filter hp) hr hid
  · rw [if_neg (by simp [hpred])]
    apply pointStep_skip
    intro p hp
    right
    intro hid
    have hpr : p = r := hinj (List.mem_of_mem_filter hp) hr hid
    have hpredr : latestAvailable r = true := (List.mem_filter.mp (hpr ▸ hp)).2
    exact hpred hpredr

/-- A three-product database: product 1 available and observed, product 2
available but missing from the batch, product 3 already unavailable. -/
def c3db : List ProductRow :=
  [{ id := 1, name := "A", roastery_name := "R",
     history := [{ available := true, price := 100 }] },
   { id := 2, name := "B", roastery_name := "R",
     history := [{ available := true, price := 200 }] },
   { id := 3, name := "C", roastery_name := "R",
     history := [{ available := false, price := 50 }] }]

/-- Witness for C3: with only `"A|||R"` observed, product 2 gets a new
unavailable record at its last known price 200, while products 1 and 3
are untouched. -/
theorem checkProducts_marks_missing_unavailable_witness :
    markMissingUnavailable c3db ["A|||R"] =
      [{ id := 1, name := "A", roastery_name := "R",
         history := [{ available := true, price := 100 }] },
       { id := 2, name := "B", roastery_name := "R",
         history := [{ available := false, price := 200 },
                     { available := true, price := 200 }] },
       { id := 3, name := "C", roastery_name := "R",
         history := [{ available := false, price := 50 }] }] := by
  have h := checkProducts_marks_missing_unavailable c3db ["A|||R"] (by decide)
  exact h.trans (by decide)

/-! ### Aggregation-size helpers for C6 -/

theorem extractSizeFromName_cases (n : String) :
    extractSizeFromName n = none ∨ extractSizeFromName n = some "250g" ∨
      extractSizeFromName n = some "1kg" := by
  simp only [extractSizeFromName]
  by_cases h1 : (hasSubstr "250g" (jsToLowerStr n) ||
      hasSubstr "250 g" (jsToLowerStr n)) = true
  · simp [h1]
  · by_cases h2 : (hasSubstr "1kg" (jsToLowerStr n) ||
        hasSubstr "1 kg" (jsToLowerStr n) || hasSubstr "1000g" (jsToLowerStr n)) = true
    · simp [h1, h2]
    · simp [h1, h2]

/-- The size tokens observed across a batch, in observation order. -/
def observedSizes (batch : List Obs) : List String :=
  batch.filterMap (fun o => extractSizeFromName o.name)

/-- The claim-side expected `availableSizes`: the union of the observed
tokens with 250g first. -/
def specSizes (batch : List Obs) : List String :=
  (if "250g" ∈ observedSizes batch then ["250g"] else []) ++
  (if "1kg" ∈ observedSizes batch then ["1kg"] else [])

/-- The claim-side expected `sizeData` entry for token `s`: price and
source observation of the last observation in the batch carrying that
token. -/
def lastSizeObs (batch : List Obs) (s : String) : Option (Int × Obs) :=
  ((batch.filter (fun o => extractSizeFromName o.name == some s)).getLast?).map
    (fun o => (o.price, o))

theorem lookup_setAssoc {β : Type} (sd : List (String × β)) (k : String) (v : β)
    (s : String) :
    (setAssoc sd k v).lookup s = if s = k then some v else sd.lookup s := by
  induction sd with
  | nil =>
    by_cases hs : s = k
    · simp [setAssoc, List.lookup, beq_iff_eq, hs]
    · have hb : (s == k) = false := beq_false_of_ne hs
      simp [setAssoc, List.lookup, hb, hs]
  | cons kv t ih =>
    rcases kv with ⟨k₀, v₀⟩
    by_cases hk : k₀ = k
    · subst hk
      by_cases hs : s = k₀
      · simp [setAssoc, List.lookup, beq_iff_eq, hs]
      · have hb : (s == k₀) = false := beq_false_of_ne hs
        simp [setAssoc, List.lookup, hb, hs]
    · by_cases hs : s = k₀
      · subst hs
        simp [setAssoc, List.lookup, beq_iff_eq, hk]
      · have hb : (s == k₀) = false := beq_false_of_ne hs
        simp [setAssoc, List.lookup, hk, hb, ih]

theorem agg_foldl_isSome (step : Option AggEntry → Obs → Option AggEntry)
    (hstep : ∀ st o, (step st o).isSome) :
    ∀ (l : List Obs) (e : AggEntry), (l.foldl step (some e)).isSome := by
  intro l
  induction l with
  | nil => intro e; rfl
  | cons o t ih =>
    intro e
    obtain ⟨e1, he1⟩ := Option.isSome_iff_exists.mp (hstep (some e) o)
    rw [List.foldl_cons, he1]
    exact ih e1

theorem agg_foldl_none (step : Option AggEntry → Obs → Option AggEntry)
    (hstep : ∀ st o, (step st o).isSome) (l : List Obs)
    (h : l.foldl step none = none) : l = [] := by
  cases l with
  | nil => rfl
  | cons o t =>
    exfalso
    obtain ⟨e1, he1⟩ := Option.isSome_iff_exists.mp (hstep none o)
    rw [List.foldl_cons, he1] at h
    have := agg_foldl_isSome step hstep t e1
    rw [h] at this
    simp at this

theorem initEntry_invariant (o : Obs) :
    (initEntry o).availableSizes = specSizes [o] ∧
    ∀ s, (initEntry o).sizeData.lookup s = lastSizeObs [o] s := by
  rcases extractSizeFromName_cases o.name with hc | hc | hc
  · constructor
    · simp [initEntry, hc, specSizes, observedSizes]
    · intro s
      simp [initEntry, hc, lastSizeObs, List.lookup]
  · constructor
    · simp [initEntry, hc, specSizes, observedSizes]
    · intro s
      by_cases hs : s = "250g"
      · subst hs
        simp [initEntry, hc, lastSizeObs, List.lookup]
      · have hb : (s == "250g") = false := beq_false_of_ne hs
        have hb2 : (some "250g" == some s) = false := by
          simp [beq_iff_eq]
          exact fun h => hs h.symm
        simp [initEntry, hc, lastSizeObs, List.lookup, hb, hb2]
  · constructor
    · simp [initEntry, hc, specSizes, observedSizes]
    · intro s
      by_cases hs : s = "1kg"
      · subst hs
        simp [initEntry, hc, lastSizeObs, List.lookup]
      · have hb : (s == "1kg") = false := beq_false_of_ne hs
        have hb2 : (some "1kg" == some s) = false := by
          simp [beq_iff_eq]
          exact fun h => hs h.symm
        simp [initEntry, hc, lastSizeObs, List.lookup, hb, hb2]

theorem merge_sizes_invariant (e₀ : AggEntry) (o : Obs) (l : List Obs)
    (ih1 : e₀.availableSizes = specSizes l) :
    mergeSizes e₀ o = specSizes (l ++ [o]) := by
  rcases extractSizeFromName_cases o.name with hc | hc | hc
  · have hobs : observedSizes (l ++ [o]) = observedSizes l := by
      simp [observedSizes, List.filterMap_append, hc]
    simp [mergeSizes, hc, ih1, specSizes, hobs]
  · have hobs : observedSizes (l ++ [o]) = observedSizes l ++ ["250g"] := by
      simp [observedSizes, List.filterMap_append, hc]
    by_cases h250 : "250g" ∈ observedSizes l <;>
      by_cases h1k : "1kg" ∈ observedSizes l <;>
      simp [mergeSizes, hc, ih1, specSizes, hobs, h250, h1k,
            jsSortCmp, insertCmp, sizeCmp]
  · have hobs : observedSizes (l ++ [o]) = observedSizes l ++ ["1kg"] := by
      simp [observedSizes, List.filterMap_append, hc]
    by_cases h250 : "250g" ∈ observedSizes l <;>
      by_cases h1k : "1kg" ∈ observedSizes l <;>
      simp [mergeSizes, hc, ih1, specSizes, hobs, h250, h1k,
            jsSortCmp, insertCmp, sizeCmp]

theorem mergeSizeData_last (e₀ : AggEntry) (o : Obs) (l : List Obs)
    (ih2 : ∀ s, e₀.sizeData.lookup s = lastSizeObs l s) :
    ∀ s, (mergeSizeData e₀ o).lookup s = lastSizeObs (l ++ [o]) s := by
  intro s
  rcases extractSizeFromName_cases o.name with hc | hc | hc
  · have hfil : (l ++ [o]).filter (fun q => extractSizeFromName q.name == some s) =
        l.filter (fun q => extractSizeFromName q.name == some s) := by
      simp [List.filter_append, hc]
    simp [mergeSizeData, hc, lastSizeObs, hfil]
    have := ih2 s
    simpa [lastSizeObs] using this
  · rw [show mergeSizeData e₀ o = setAssoc e₀.sizeData "250g" (o.price, o) by
      simp [mergeSizeData, hc]]
    rw [lookup_setAssoc]
    by_cases hs : s = "250g"
    · subst hs
      simp [lastSizeObs, List.filter_append, hc, List.getLast?_concat]
    · have hb2 : (some ("250g" : String) == some s) = false := by
        simp [beq_iff_eq]
        exact fun h => hs h.symm
      simp only [if_neg hs, ih2 s]
      have hfil : (l ++ [o]).filter (fun q => extractSizeFromName q.name == some s) =
          l.filter (fun q => extractSizeFromName q.name == some s) := by
        simp [List.filter_append, hc, hb2]
      simp [lastSizeObs, hfil]
  · rw [show mergeSizeData e₀ o = setAssoc e₀.sizeData "1kg" (o.price, o) by
      simp [mergeSizeData, hc]]
    rw [lookup_setAssoc]
    by_cases hs : s = "1kg"
    · subst hs
      simp [lastSizeObs, List.filter_append, hc, List.getLast?_concat]
    · have hb2 : (some ("1kg" : String) == some s) = false := by
        simp [beq_iff_eq]
        exact fun h => hs h.symm
      simp only [if_neg hs, ih2 s]
      have hfil : (l ++ [o]).filter (fun q => extractSizeFromName q.name == some s) =
          l.filter (fun q => extractSizeFromName q.name == some s) := by
        simp [List.filter_append, hc, hb2]
      simp [lastSizeObs, hfil]

theorem agg_invariant (step : Option AggEntry → Obs → Option AggEntry)
    (hinit : ∀ o, step none o = some (initEntry o))
    (hmerge : ∀ e o, ∃ prod, step (some e) o =
        some { product := prod, availableSizes := mergeSizes e o,
               sizeData := mergeSizeData e o }) :
    ∀ (batch : List Obs) (e : AggEntry), batch.foldl step none = some e →
      e.availableSizes = specSizes batch ∧
      (∀ s, e.sizeData.lookup s = lastSizeObs batch s) := by
  have hstep : ∀ st o, (step st o).isSome := by
    intro st o
    cases st with
    | none => rw [hinit]; rfl
    | some e => obtain ⟨prod, hp⟩ := hmerge e o; rw [hp]; rfl
  intro batch
  induction batch using List.reverseRecOn with
  | nil => intro e h; simp at h
  | append_singleton l o ih =>
    intro e h
    rw [List.foldl_append, List.foldl_cons, List.foldl_nil] at h
    rcases hl : l.foldl step none with _ | e₀
    · have hln : l = [] := agg_foldl_none step hstep l hl
      subst hln
      simp only [List.foldl_nil] at h
      rw [hinit] at h
      injection h with he
      subst he
      simpa using initEntry_invariant o
    · rw [hl] at h
      obtain ⟨prod, hp⟩ := hmerge e₀ o
      rw [hp] at h
      injection h with he
      subst he
      obtain ⟨ih1, ih2⟩ := ih e₀ hl
      exact ⟨merge_sizes_invariant e₀ o l ih1, mergeSizeData_last e₀ o l ih2⟩

theorem mem_observedSizes (batch : List Obs) (s : String)
    (h : s ∈ observedSizes batch) : s = "250g" ∨ s = "1kg" := by
  obtain ⟨o, ho, hx⟩ := List.mem_filterMap.mp h
  rcases extractSizeFromName_cases o.name with hc | hc | hc <;> rw [hc] at hx
  · exact absurd hx (by simp)
  · injection hx with h1
    exact Or.inl h1.symm
  · injection hx with h1
    exact Or.inr h1.symm

/-- The claim-side expected `sizeData` entry of the legacy monitor path:
price and source observation of the first observation in the batch
carrying token `s` (later observations of an already-present token are
ignored by the guarded write). -/
def firstSizeObs (batch : List Obs) (s : String) : Option (Int × Obs) :=
  ((batch.filter (fun o => extractSizeFromName o.name == some s)).head?).map
    (fun o => (o.price, o))

theorem mem_specSizes_token (l : List Obs) :
    ("250g" ∈ specSizes l ↔ "250g" ∈ observedSizes l) ∧
    ("1kg" ∈ specSizes l ↔ "1kg" ∈ observedSizes l) := by
  constructor <;>
    (by_cases h250 : "250g" ∈ observedSizes l <;>
     by_cases h1k : "1kg" ∈ observedSizes l <;>
     simp [specSizes, h250, h1k])

theorem observed_iff_filter_ne_nil (l : List Obs) (s : String) :
    s ∈ observedSizes l ↔
      l.filter (fun o => extractSizeFromName o.name == some s) ≠ [] := by
  rw [observedSizes, List.mem_filterMap]
  constructor
  · rintro ⟨o, ho, hf⟩ hnil
    have hmem : o ∈ l.filter (fun o => extractSizeFromName o.name == some s) :=
      List.mem_filter.mpr ⟨ho, by simp [hf]⟩
    rw [hnil] at hmem
    simp at hmem
  · intro hne
    rcases hf : l.filter (fun o => extractSizeFromName o.name == some s) with _ | ⟨o, t⟩
    · exact absurd hf hne
    · have hmem : o ∈ l.filter (fun o => extractSizeFromName o.name == some s) := by
        rw [hf]
        exact List.mem_cons_self o t
      have := List.mem_filter.mp hmem
      exact ⟨o, this.1, by simpa using this.2⟩

theorem firstSizeObs_singleton (o : Obs) (s : String) :
    firstSizeObs [o] s = lastSizeObs [o] s := by
  rcases hp : (extractSizeFromName o.name == some s) with _ | _
  · simp [firstSizeObs, lastSizeObs, List.filter_cons, hp]
  · simp [firstSizeObs, lastSizeObs, List.filter_cons, hp]

theorem monitorMergeSizeData_first (e₀ : AggEntry) (o : Obs) (l : List Obs)
    (ih1 : e₀.availableSizes = specSizes l)
    (ih2 : ∀ s, e₀.sizeData.lookup s = firstSizeObs l s) :
    ∀ s, (monitorMergeSizeData e₀ o).lookup s = firstSizeObs (l ++ [o]) s := by
  intro s
  rcases extractSizeFromName_cases o.name with hc | hc | hc
  · have hfil : (l ++ [o]).filter (fun q => extractSizeFromName q.name == some s) =
        l.filter (fun q => extractSizeFromName q.name == some s) := by
      simp [List.filter_append, hc]
    simp [monitorMergeSizeData, hc, firstSizeObs, hfil]
    have := ih2 s
    simpa [firstSizeObs] using this
  · by_cases hmem : "250g" ∈ e₀.availableSizes
    · have hobs : "250g" ∈ observedSizes l := by
        rw [ih1] at hmem
        exact (mem_specSizes_token l).1.mp hmem
      have hfl : l.filter (fun q => extractSizeFromName q.name == some "250g") ≠ [] :=
        (observed_iff_filter_ne_nil l "250g").mp hobs
      rw [show monitorMergeSizeData e₀ o = e₀.sizeData by
        simp [monitorMergeSizeData, hc, hmem]]
      rw [ih2 s]
      by_cases hs : s = "250g"
      · subst hs
        rcases hfe : l.filter (fun q => extractSizeFromName q.name == some "250g")
            with _ | ⟨x, xs⟩
        · exact absurd hfe hfl
        · simp [firstSizeObs, List.filter_append, hc, hfe]
      · have hb2 : (some ("250g" : String) == some s) = false := by
          simp [beq_iff_eq]
          exact fun h => hs h.symm
        have hfil : (l ++ [o]).filter (fun q => extractSizeFromName q.name == some s) =
            l.filter (fun q => extractSizeFromName q.name == some s) := by
          simp [List.filter_append, hc, hb2]
        simp [firstSizeObs, hfil]
    · have hobs : "250g" ∉ observedSizes l := by
        rw [ih1] at hmem
        exact fun h => hmem ((mem_specSizes_token l).1.mpr h)
      have hfl : l.filter (fun q => extractSizeFromName q.name == some "250g") = [] := by
        by_contra hne
        exact hobs ((observed_iff_filter_ne_nil l "250g").mpr hne)
      rw [show monitorMergeSizeData e₀ o = setAssoc e₀.sizeData "250g" (o.price, o) by
        simp [monitorMergeSizeData, hc, hmem]]
      rw [lookup_setAssoc]
      by_cases hs : s = "250g"
      · subst hs
        simp [firstSizeObs, List.filter_append, hc, hfl]
      · have hb2 : (some ("250g" : String) == some s) = false := by
          simp [beq_iff_eq]
          exact fun h => hs h.symm
        have hfil : (l ++ [o]).filter (fun q => extractSizeFromName q.name == some s) =
            l.filter (fun q => extractSizeFromName q.name == some s) := by
          simp [List.filter_append, hc, hb2]
        simp [if_neg hs, ih2 s, firstSizeObs, hfil]
  · by_cases hmem : "1kg" ∈ e₀.availableSizes
    · have hobs : "1kg" ∈ observedSizes l := by
        rw [ih1] at hmem
        exact (mem_specSizes_token l).2.mp hmem
      have hfl : l.filter (fun q => extractSizeFromName q.name == some "1kg") ≠ [] :=
        (observed_iff_filter_ne_nil l "1kg").mp hobs
      rw [show monitorMergeSizeData e₀ o = e₀.sizeData by
        simp [monitorMergeSizeData, hc, hmem]]
      rw [ih2 s]
      by_cases hs : s = "1kg"
      · subst hs
        rcases hfe : l.filter (fun q => extractSizeFromName q.name == some "1kg")
            with _ | ⟨x, xs⟩
        · exact absurd hfe hfl
        · simp [firstSizeObs, List.filter_append, hc, hfe]
      · have hb2 : (some ("1kg" : String) == some s) = false := by
          simp [beq_iff_eq]
          exact fun h => hs h.symm
        have hfil : (l ++ [o]).filter (fun q => extractSizeFromName q.name == some s) =
            l.filter (fun q => extractSizeFromName q.name == some s) := by
          simp [List.filter_append, hc, hb2]
        simp [firstSizeObs, hfil]
    · have hobs : "1kg" ∉ observedSizes l := by
        rw [ih1] at hmem
        exact fun h => hmem ((mem_specSizes_token l).2.mpr h)
      have hfl : l.filter (fun q => extractSizeFromName q.name == some "1kg") = [] := by
        by_contra hne
        exact hobs ((observed_iff_filter_ne_nil l "1kg").mpr hne)
      rw [show monitorMergeSizeData e₀ o = setAssoc e₀.sizeData "1kg" (o.price, o) by
        simp [monitorMergeSizeData, hc, hmem]]
      rw [lookup_setAssoc]
      by_cases hs : s = "1kg"
      · subst hs
        simp [firstSizeObs, List.filter_append, hc, hfl]
      · have hb2 : (some ("1kg" : String) == some s) = false := by
          simp [beq_iff_eq]
          exact fun h => hs h.symm
        have hfil : (l ++ [o]).filter (fun q => extractSizeFromName q.name == some s) =
            l.filter (fun q => extractSizeFromName q.name == some s) := by
          simp [List.filter_append, hc, hb2]
        simp [if_neg hs, ih2 s, firstSizeObs, hfil]

theorem agg_invariant_first :
    ∀ (batch : List Obs) (e : AggEntry), batch.foldl monitorStep none = some e →
      e.availableSizes = specSizes batch ∧
      (∀ s, e.sizeData.lookup s = firstSizeObs batch s) := by
  have hstep : ∀ st (o : Obs), (monitorStep st o).isSome := by
    intro st o
    cases st <;> rfl
  intro batch
  induction batch using List.reverseRecOn with
  | nil => intro e h; simp at h
  | append_singleton l o ih =>
    intro e h
    rw [List.foldl_append, List.foldl_cons, List.foldl_nil] at h
    rcases hl : l.foldl monitorStep none with _ | e₀
    · have hln : l = [] := agg_foldl_none monitorStep hstep l hl
      subst hln
      simp only [List.foldl_nil] at h
      rw [show monitorStep none o = some (initEntry o) from rfl] at h
      injection h with he
      subst he
      refine ⟨by simpa using (initEntry_invariant o).1, ?_⟩
      intro s
      rw [List.nil_append, firstSizeObs_singleton]
      exact (initEntry_invariant o).2 s
    · rw [hl] at h
      rw [show monitorStep (some e₀) o =
          some { product := e₀.product
                 availableSizes := mergeSizes e₀ o
                 sizeData := monitorMergeSizeData e₀ o } from rfl] at h
      injection h with he
      subst he
      obtain ⟨ih1, ih2⟩ := ih e₀ hl
      exact ⟨merge_sizes_invariant e₀ o l ih1,
             monitorMergeSizeData_first e₀ o l ih1 ih2⟩

theorem specSizes_props (batch : List Obs) :
    (specSizes batch).Nodup ∧
    (∀ s, s ∈ specSizes batch ↔ s ∈ observedSizes batch) ∧
    List.Pairwise (fun a b => ¬(a = "1kg" ∧ b = "250g")) (specSizes batch) := by
  refine ⟨?_, ?_, ?_⟩
  · by_cases h250 : "250g" ∈ observedSizes batch <;>
      by_cases h1k : "1kg" ∈ observedSizes batch <;>
      simp [specSizes, h250, h1k]
  · intro s
    constructor
    · intro hs
      by_cases h250 : "250g" ∈ observedSizes batch <;>
        by_cases h1k : "1kg" ∈ observedSizes batch <;>
        simp [specSizes, h250, h1k] at hs <;>
        first
          | (rcases hs with rfl | rfl
             · exact h250
             · exact h1k)
          | (subst hs; assumption)
    · intro hs
      rcases mem_observedSizes batch s hs with rfl | rfl <;> simp [specSizes, hs]
  · by_cases h250 : "250g" ∈ observedSizes batch <;>
      by_cases h1k : "1kg" ∈ observedSizes batch <;>
      simp [specSizes, h250, h1k]

/-- C6: the entry aggregated from a same-group batch carries as
`availableSizes` the duplicate-free union of the size tokens observed
across the batch, sorted with 250g before 1kg, and its `sizeData` maps
each observed token to the price and source observation recorded for that
size: in the deep-scan path the unconditional write makes the last
observation of a token win, while in the legacy monitor path the guarded
write keeps the first observation of each token. -/
theorem aggregate_sizes_union :
    (∀ (batch : List Obs) (e : AggEntry), deepScanAggregate batch = some e →
      e.availableSizes.Nodup ∧
      (∀ s, s ∈ e.availableSizes ↔ s ∈ observedSizes batch) ∧
      List.Pairwise (fun a b => ¬(a = "1kg" ∧ b = "250g")) e.availableSizes ∧
      (∀ s, e.sizeData.lookup s = lastSizeObs batch s)) ∧
    (∀ (batch : List Obs) (e : AggEntry), monitorAggregate batch = some e →
      e.availableSizes.Nodup ∧
      (∀ s, s ∈ e.availableSizes ↔ s ∈ observedSizes batch) ∧
      List.Pairwise (fun a b => ¬(a = "1kg" ∧ b = "250g")) e.availableSizes ∧
      (∀ s, e.sizeData.lookup s = firstSizeObs batch s)) := by
  constructor
  · intro batch e h
    obtain ⟨h1, h2⟩ := agg_invariant deepScanStep (fun o => rfl)
      (fun e₀ o => ⟨_, rfl⟩) batch e h
    rw [h1]
    obtain ⟨p1, p2, p3⟩ := specSizes_props batch
    exact ⟨p1, p2, p3, h2⟩
  · intro batch e h
    obtain ⟨h1, h2⟩ := agg_invariant_first batch e h
    rw [h1]
    obtain ⟨p1, p2, p3⟩ := specSizes_props batch
    exact ⟨p1, p2, p3, h2⟩

/-- The entry the deep-scan aggregation produces for the example pair. -/
def c6entry : AggEntry :=
  { product := obsOrganic1kg
    availableSizes := ["250g", "1kg"]
    sizeData := [("250g", (100, obsNonOrganic250)), ("1kg", (300, obsOrganic1kg))] }

/-- A second 250g observation of the same group at a different price. -/
def m6obsB : Obs := { name := "Kaffe 250g fin", organic := false, price := 120 }

/-- The entry the legacy monitor aggregation produces for two 250g
observations: the guarded write keeps the first observation's price. -/
def m6entry : AggEntry :=
  { product := obsNonOrganic250
    availableSizes := ["250g"]
    sizeData := [("250g", (100, obsNonOrganic250))] }

/-- Witness for C6: the deep-scan aggregation of the example pair yields
duplicate-free sizes `["250g", "1kg"]` with per-size data, and the monitor
aggregation of two same-token observations keeps the first observation's
price and source under that token. -/
theorem aggregate_sizes_union_witness :
    c6entry.availableSizes.Nodup ∧
    ("1kg" ∈ c6entry.availableSizes ↔
      "1kg" ∈ observedSizes [obsNonOrganic250, obsOrganic1kg]) ∧
    c6entry.sizeData.lookup "250g" =
      lastSizeObs [obsNonOrganic250, obsOrganic1kg] "250g" ∧
    m6entry.sizeData.lookup "250g" =
      firstSizeObs [obsNonOrganic250, m6obsB] "250g" := by
  have hd := aggregate_sizes_union.1 [obsNonOrganic250, obsOrganic1kg] c6entry
    (by decide)
  have hm := aggregate_sizes_union.2 [obsNonOrganic250, m6obsB] m6entry
    (by decide)
  exact ⟨hd.1, hd.2.1 "1kg", hd.2.2.2 "250g", hm.2.2.2 "250g"⟩

/-! ### String lemmas for the group-id identity claim -/

theorem jsToLowerStr_append (a b : String) :
    jsToLowerStr (a ++ b) = jsToLowerStr a ++ jsToLowerStr b := by
  apply String.ext
  simp [jsToLowerStr, String.data_append]

theorem jsToLowerStr_eq_empty (s : String) : jsToLowerStr s = "" ↔ s = "" := by
  constructor
  · intro h
    apply String.ext
    have := congrArg String.data h
    simpa [jsToLowerStr] using this
  · intro h
    subst h
    rfl

theorem jsToLowerStr_joinParts (l : List String) :
    jsToLowerStr (joinParts l) = joinParts (l.map jsToLowerStr) := by
  induction l with
  | nil => rfl
  | cons s rest ih =>
    cases rest with
    | nil => rfl
    | cons s2 t =>
      simp only [joinParts, List.map_cons]
      rw [jsToLowerStr_append, jsToLowerStr_append, ih]
      rfl

/-- The attribute bag with every string field lower-cased. -/
def lowerTags (t : AITags) : AITags :=
  { country_of_origin := t.country_of_origin.map jsToLowerStr
    region := t.region.map jsToLowerStr
    variety := t.variety.map jsToLowerStr
    process_method := t.process_method.map jsToLowerStr
    roast_level := t.roast_level.map jsToLowerStr
    is_decaf := t.is_decaf }

theorem jsOrStr_lower (v : Option String) (d : String) :
    jsToLowerStr (jsOrStr v d) = jsOrStr (v.map jsToLowerStr) (jsToLowerStr d) := by
  cases v with
  | none => rfl
  | some s =>
    by_cases hs : s = ""
    · subst hs
      have h0 : jsToLowerStr "" = "" := rfl
      simp [jsOrStr, h0]
    · have hls : jsToLowerStr s ≠ "" := fun h => hs ((jsToLowerStr_eq_empty s).mp h)
      simp [jsOrStr, hs, hls]

theorem filter_map_comm_of (f : String → String) (p : String → Bool)
    (l : List String) (hpf : ∀ s, p (f s) = p s) :
    (l.filter p).map f = (l.map f).filter p := by
  induction l with
  | nil => rfl
  | cons s t ih =>
    rw [List.map_cons, List.filter_cons, List.filter_cons, hpf]
    cases hp : p s
    · simp [ih]
    · simp [ih]

theorem filter_ne_empty_map_lower (l : List String) :
    (l.filter (fun s => s ≠ "")).map jsToLowerStr =
      (l.map jsToLowerStr).filter (fun s => s ≠ "") := by
  apply filter_map_comm_of
  intro s
  by_cases hs : s = ""
  · subst hs
    rfl
  · have hls : jsToLowerStr s ≠ "" := fun h => hs ((jsToLowerStr_eq_empty s).mp h)
    simp [hs, hls]

theorem groupIdParts_lower (t : AITags) (r : String) :
    (groupIdParts t r).map jsToLowerStr = groupIdParts (lowerTags t) (jsToLowerStr r) := by
  unfold groupIdParts lowerTags
  rw [filter_ne_empty_map_lower]
  congr 1
  simp only [List.map_cons, List.map_nil, jsOrStr_lower]
  have hdecaf : jsToLowerStr (if t.is_decaf then "decaf" else "") =
      (if t.is_decaf then "decaf" else "") := by
    cases t.is_decaf <;> rfl
  rw [hdecaf]
  rfl

theorem prehash_via_lowered_parts (t : AITags) (r : String) :
    generateProductGroupPrehash (some t) r =
      some (joinParts ((groupIdParts t r).map jsToLowerStr)) := by
  simp [generateProductGroupPrehash, jsToLowerStr_joinParts]

theorem append_colon_cancel : ∀ (a b r r' : List Char), ':' ∉ a → ':' ∉ b →
    a ++ ':' :: r = b ++ ':' :: r' → a = b ∧ r = r' := by
  intro a
  induction a with
  | nil =>
    intro b r r' _ hb h
    cases b with
    | nil =>
      simp only [List.nil_append] at h
      injection h with h1 h2
      exact ⟨rfl, h2⟩
    | cons d bt =>
      simp only [List.nil_append, List.cons_append] at h
      injection h with h1 h2
      subst h1
      exact absurd (List.mem_cons_self _ _) hb
  | cons c ct ih =>
    intro b r r' ha hb h
    cases b with
    | nil =>
      simp only [List.nil_append, List.cons_append] at h
      injection h with h1 h2
      subst h1
      exact absurd (List.mem_cons_self _ _) ha
    | cons d bt =>
      simp only [List.cons_append] at h
      injection h with h1 h2
      obtain ⟨hab, hrr⟩ := ih bt r r'
        (fun hm => ha (List.mem_cons_of_mem _ hm))
        (fun hm => hb (List.mem_cons_of_mem _ hm)) h2
      subst h1
      exact ⟨by rw [hab], hrr⟩

theorem joinParts_inj : ∀ (l l' : List String),
    (∀ s ∈ l, s ≠ "" ∧ ':' ∉ s.data) → (∀ s ∈ l', s ≠ "" ∧ ':' ∉ s.data) →
    joinParts l = joinParts l' → l = l' := by
  intro l
  induction l with
  | nil =>
    intro l' _ hl' h
    cases l' with
    | nil => rfl
    | cons s t =>
      exfalso
      cases t with
      | nil =>
        simp only [joinParts] at h
        exact (hl' s (by simp)).1 h.symm
      | cons s2 t2 =>
        simp only [joinParts] at h
        have hd := congrArg String.data h
        rw [String.data_append, String.data_append] at hd
        have hlen := congrArg List.length hd
        simp at hlen
        omega
  | cons s t ih =>
    intro l' hl hl' h
    cases l' with
    | nil =>
      exfalso
      cases t with
      | nil =>
        simp only [joinParts] at h
        exact (hl s (by simp)).1 h
      | cons u v =>
        simp only [joinParts] at h
        have hd := congrArg String.data h
        rw [String.data_append, String.data_append] at hd
        have hlen := congrArg List.length hd
        simp at hlen
    | cons s2 t2 =>
      cases t with
      | nil =>
        cases t2 with
        | nil =>
          simp only [joinParts] at h
          rw [h]
        | cons u v =>
          exfalso
          simp only [joinParts] at h
          have hd := congrArg String.data h
          rw [String.data_append, String.data_append] at hd
          have hmem : ':' ∈ s.data := by
            rw [hd]
            have hcolon : (":" : String).data = [':'] := rfl
            rw [hcolon]
            simp
          exact (hl s (by simp)).2 hmem
      | cons u v =>
        cases t2 with
        | nil =>
          exfalso
          simp only [joinParts] at h
          have hd := congrArg String.data h
          rw [String.data_append, String.data_append] at hd
          have hmem : ':' ∈ s2.data := by
            rw [← hd]
            have hcolon : (":" : String).data = [':'] := rfl
            rw [hcolon]
            simp
          exact (hl' s2 (by simp)).2 hmem
        | cons u2 v2 =>
          simp only [joinParts] at h
          have hd := congrArg String.data h
          have hcolon : (":" : String).data = [':'] := rfl
          rw [String.data_append, String.data_append, String.data_append,
              String.data_append, hcolon, List.append_assoc, List.append_assoc,
              List.singleton_append, List.singleton_append] at hd
          obtain ⟨h1, h2⟩ := append_colon_cancel s.data s2.data _ _
            (hl s (by simp)).2 (hl' s2 (by simp)).2 hd
          have hs : s = s2 := String.ext h1
          have hJ : joinParts (u :: v) = joinParts (u2 :: v2) := String.ext h2
          have ht : u :: v = u2 :: v2 := ih (u2 :: v2)
            (fun q hq => hl q (by simp [hq]))
            (fun q hq => hl' q (by simp [hq])) hJ
          rw [hs, ht]

theorem groupIdParts_ne_empty (t : AITags) (r : String) :
    ∀ s ∈ groupIdParts t r, s ≠ "" := by
  intro s hs
  have := List.of_mem_filter hs
  simpa using this

/-- C4 (amended): `generateProductGroupId` is deterministic (a pure
function of the normalized tuple) and case-insensitive — bags and roastery
names with equal lower-casings yield the same id for every hash.  The
pre-hash strings of two colon-free normalized tuples coincide exactly when
their lower-cased filtered part lists coincide, so distinct tuples give
distinct ids up to hash collision only when those part lists differ.
Because `filter(Boolean)` drops empty fields before joining, a value that
moves between adjacent optional fields (the counterexample: region
`"natural"` versus variety `"natural"`) produces identical pre-hash
strings even though the bags differ in a non-empty field. -/
theorem groupId_deterministic_prehash_identity :
    (∀ (hash : String → String) (a : Option AITags) (r : String),
        generateProductGroupId hash a r = generateProductGroupId hash a r) ∧
    (∀ (hash : String → String) (t t' : AITags) (r r' : String),
        lowerTags t = lowerTags t' → jsToLowerStr r = jsToLowerStr r' →
        generateProductGroupId hash (some t) r = generateProductGroupId hash (some t') r') ∧
    (∀ (t t' : AITags) (r r' : String),
        (∀ s ∈ (groupIdParts t r).map jsToLowerStr, ':' ∉ s.data) →
        (∀ s ∈ (groupIdParts t' r').map jsToLowerStr, ':' ∉ s.data) →
        (generateProductGroupPrehash (some t) r = generateProductGroupPrehash (some t') r' ↔
          (groupIdParts t r).map jsToLowerStr = (groupIdParts t' r').map jsToLowerStr)) := by
  refine ⟨fun _ _ _ => rfl, ?_, ?_⟩
  · intro hash t t' r r' ht hr
    unfold generateProductGroupId
    rw [prehash_via_lowered_parts, prehash_via_lowered_parts,
        groupIdParts_lower, groupIdParts_lower, ht, hr]
  · intro t t' r r' hnc hnc'
    rw [prehash_via_lowered_parts, prehash_via_lowered_parts]
    constructor
    · intro h
      injection h with h1
      apply joinParts_inj _ _ ?_ ?_ h1
      · intro s hs
        refine ⟨?_, hnc s hs⟩
        obtain ⟨u, hu, hlu⟩ := List.mem_map.mp hs
        subst hlu
        exact fun he => groupIdParts_ne_empty t r u hu ((jsToLowerStr_eq_empty u).mp he)
      · intro s hs
        refine ⟨?_, hnc' s hs⟩
        obtain ⟨u, hu, hlu⟩ := List.mem_map.mp hs
        subst hlu
        exact fun he => groupIdParts_ne_empty t' r' u hu ((jsToLowerStr_eq_empty u).mp he)
    · intro h
      rw [h]

/-- The bag whose region is "natural" (all other fields absent). -/
def c4tagsRegion : AITags := { emptyTags with region := some "natural" }

/-- The bag whose variety is "natural" (all other fields absent). -/
def c4tagsVariety : AITags := { emptyTags with variety := some "natural" }

/-- Counterexample for C4 as stated: the two bags differ in the non-empty
field `region` (and in `variety`), yet their lower-cased colon-joined
pre-hash strings are identical — both are `"roastery:unknown:natural"` —
so their group ids coincide for every hash, not merely up to hash
collision. -/
theorem groupId_prehash_collision_counterexample :
    c4tagsRegion.region = some "natural" ∧ c4tagsVariety.region = none ∧
    c4tagsRegion ≠ c4tagsVariety ∧
    generateProductGroupPrehash (some c4tagsRegion) "Roastery" =
      generateProductGroupPrehash (some c4tagsVariety) "Roastery" ∧
    generateProductGroupId (fun s => s) (some c4tagsRegion) "Roastery" =
      generateProductGroupId (fun s => s) (some c4tagsVariety) "Roastery" := by
  refine ⟨rfl, rfl, by decide, by decide, by decide⟩

/-- Witness for C4 (amended): two bags differing in a colon-free country
field produce different pre-hash strings. -/
theorem groupId_deterministic_prehash_identity_witness :
    generateProductGroupPrehash
        (some { emptyTags with country_of_origin := some "Ethiopia" }) "R" ≠
      generateProductGroupPrehash
        (some { emptyTags with country_of_origin := some "Kenya" }) "R" := by
  intro h
  have hparts := (groupId_deterministic_prehash_identity.2.2
    { emptyTags with country_of_origin := some "Ethiopia" }
    { emptyTags with country_of_origin := some "Kenya" } "R" "R"
    (by decide) (by decide)).mp h
  exact absurd hparts (by decide)
